import Mathlib

/-!
Verification of the Backtest-Simple repository against its specification.

The development shallowly embeds the two core source files:

* src/backtester.py — class Backtester (constructor type checks, _align_data,
  run) producing a BacktestResult;
* src/metrics.py — summarize, producing the five performance metrics;
* src/strategy.py — sma_crossover_signal.

Modelling conventions:

* a pandas Series is a list of (date, value) pairs; dates are integer day
  numbers; a value of none models a NaN cell (pandas missing value);
* rational arithmetic (ℚ) replaces IEEE floats in the simulation engine,
  where the source only adds, multiplies and divides; real arithmetic (ℝ)
  replaces floats in the metrics, where the source takes logs, square roots
  and fractional powers.  Lean division by zero yields 0 where IEEE would
  give inf/nan; no theorem below depends on an input that divides by zero;
* the Sharpe block is sensitive to IEEE special values: np.log(0.0) is
  -inf, np.log of a negative number is nan, and dropna removes nan but
  keeps infinities, which then poison mean and std; that block is therefore
  modelled over RVal, an IEEE double as the aggregations see it (a finite
  real, +inf, -inf, or nan), with nan comparing false everywhere;
* astype(int) truncation toward zero is modelled by pyInt.
-/

namespace Backtest

/-- Model of a pandas Series: (date, value) pairs, none value = NaN cell. -/
abbrev Series := List (ℤ × Option ℚ)

/-- Index of a series (pandas .index). -/
def keys (s : Series) : List ℤ := s.map Prod.fst

/-- Values of a series in index order. -/
def vals (s : Series) : List (Option ℚ) := s.map Prod.snd

/-- Value stored at date d (pandas .loc[d]); none when the date is absent. -/
def lookup (s : Series) (d : ℤ) : Option ℚ :=
  match s.find? (fun p => p.1 == d) with
  | some p => p.2
  | none => none

/-- Backtester._align_data: common index of prices and positions, further
intersected with the risk-free index when one is supplied.  For the strictly
increasing, duplicate-free indexes of the data model, the pandas
Index.intersection used by the source is exactly this filter of the prices
index. -/
def commonIdx (prices positions : Series) (rf : Option Series) : List ℤ :=
  match rf with
  | none => (keys prices).filter (fun d => (keys positions).contains d)
  | some r =>
      (keys prices).filter (fun d =>
        (keys positions).contains d && (keys r).contains d)

/-- Elementwise binary arithmetic on value columns; NaN propagates, and the
result is truncated to the shorter length (the source only combines columns
of equal length). -/
def map2 (f : ℚ → ℚ → ℚ) : List (Option ℚ) → List (Option ℚ) → List (Option ℚ) :=
  List.zipWith (fun a b => a.bind fun x => b.map fun y => f x y)

def addV : List (Option ℚ) → List (Option ℚ) → List (Option ℚ) := map2 (· + ·)

def subV : List (Option ℚ) → List (Option ℚ) → List (Option ℚ) := map2 (· - ·)

def mulV : List (Option ℚ) → List (Option ℚ) → List (Option ℚ) := map2 (· * ·)

/-- Series.pct_change: first entry NaN, then cur/prev - 1, NaN propagating. -/
def pctChange : List (Option ℚ) → List (Option ℚ)
  | [] => []
  | x :: xs =>
      none :: List.zipWith
        (fun prev cur => prev.bind fun a => cur.map fun b => b / a - 1)
        (x :: xs) xs

/-- Series.diff: first entry NaN, then cur - prev, NaN propagating. -/
def diffV : List (Option ℚ) → List (Option ℚ)
  | [] => []
  | x :: xs =>
      none :: List.zipWith
        (fun prev cur => prev.bind fun a => cur.map fun b => b - a)
        (x :: xs) xs

/-- Series.fillna(v): replace every NaN cell by v. -/
def fillna (v : ℚ) : List (Option ℚ) → List (Option ℚ) :=
  List.map (fun o => some (o.getD v))

/-- Series.abs, elementwise, NaN propagating. -/
def absV : List (Option ℚ) → List (Option ℚ) :=
  List.map (Option.map (fun x => |x|))

/-- Multiplication of a series by a scalar, NaN propagating. -/
def scaleV (c : ℚ) : List (Option ℚ) → List (Option ℚ) :=
  List.map (Option.map (fun x => x * c))

/-- Series.fillna(method='ffill') with running last defined value acc. -/
def ffillFrom (acc : Option ℚ) : List (Option ℚ) → List (Option ℚ)
  | [] => []
  | o :: rest =>
      match o with
      | some v => some v :: ffillFrom (some v) rest
      | none => acc :: ffillFrom acc rest

/-- Series.fillna(method='ffill'). -/
def ffill : List (Option ℚ) → List (Option ℚ) := ffillFrom none

/-- The NAV loop body of Backtester.run: each entry is
prev * (1 + net return), NaN propagating, carrying the produced value. -/
def navLoop (prev : Option ℚ) : List (Option ℚ) → List (Option ℚ)
  | [] => []
  | r :: rs =>
      let x := prev.bind fun p => r.map fun q => p * (1 + q)
      x :: navLoop x rs

/-- Equity curve recursion of Backtester.run step 6: first entry 1.0, then
equity[t] = equity[t-1] * (1 + net[t]) for t from 1. -/
def equityOf : List (Option ℚ) → List (Option ℚ)
  | [] => []
  | _ :: rest => some 1 :: navLoop (some 1) rest

/-- Asset returns, Backtester.run step 1. -/
def assetReturns (pv : List (Option ℚ)) : List (Option ℚ) := pctChange pv

/-- Trade events before the final fillna, Backtester.run step 2. -/
def tradesTs (qv : List (Option ℚ)) : List (Option ℚ) := diffV qv

/-- One-way cost rate: (cost_bps / 2) / 10000. -/
def oneWayCostRate (costBps : ℚ) : ℚ := costBps / 2 / 10000

/-- Transaction cost percentages, Backtester.run step 3:
abs(trades) * one-way rate, NaN (first entry) filled with 0. -/
def transactionCosts (qv : List (Option ℚ)) (costBps : ℚ) : List (Option ℚ) :=
  fillna 0 (scaleV (oneWayCostRate costBps) (absV (tradesTs qv)))

/-- Active asset returns, Backtester.run step 4: positions * asset returns. -/
def activeReturns (pv qv : List (Option ℚ)) : List (Option ℚ) :=
  mulV qv (assetReturns pv)

/-- Risk-free component: a zero series when no risk-free series is supplied,
else (1 - positions) * (rf / 100 / 365). -/
def rfComponent (qv : List (Option ℚ)) : Option (List (Option ℚ)) → List (Option ℚ)
  | none => List.replicate qv.length (some 0)
  | some rv => map2 (fun p r => (1 - p) * (r / 100 / 365)) qv rv

/-- Gross daily returns: active.fillna(0) + rf component.fillna(0). -/
def grossReturns (pv qv : List (Option ℚ)) (rv : Option (List (Option ℚ))) :
    List (Option ℚ) :=
  addV (fillna 0 (activeReturns pv qv)) (fillna 0 (rfComponent qv rv))

/-- Net daily returns, Backtester.run step 5: gross - transaction costs. -/
def netReturns (pv qv : List (Option ℚ)) (rv : Option (List (Option ℚ)))
    (costBps : ℚ) : List (Option ℚ) :=
  subV (grossReturns pv qv rv) (transactionCosts qv costBps)

/-- Equity curve before the trailing forward fill. -/
def equityRaw (pv qv : List (Option ℚ)) (rv : Option (List (Option ℚ)))
    (costBps : ℚ) : List (Option ℚ) :=
  equityOf (netReturns pv qv rv costBps)

/-- Final equity curve values: NAV recursion then fillna(method='ffill'). -/
def equityCurve (pv qv : List (Option ℚ)) (rv : Option (List (Option ℚ)))
    (costBps : ℚ) : List (Option ℚ) :=
  ffill (equityRaw pv qv rv costBps)

/-- Python int(...) / numpy astype(int) truncation toward zero. -/
def pyInt (q : ℚ) : ℤ := if 0 ≤ q then ⌊q⌋ else -⌊-q⌋

/-- Final trades column: trades_ts.fillna(0).astype(int). -/
def tradesFinal (qv : List (Option ℚ)) : List (Option ℚ) :=
  (tradesTs qv).map (fun o => some ((pyInt (o.getD 0) : ℚ)))

/-- Final positions column: aligned positions .astype(int). -/
def positionsFinal (qv : List (Option ℚ)) : List (Option ℚ) :=
  qv.map (Option.map (fun q => (pyInt q : ℚ)))

/-- BacktestResult of src/backtester.py: equity curve, positions, trades. -/
structure BacktestResult where
  equity_curve : Series
  positions : Series
  trades : Series

/-- Aligned price values, Backtester._align_data. -/
def alignedP (P Q : Series) (R : Option Series) : List (Option ℚ) :=
  (commonIdx P Q R).map (lookup P)

/-- Aligned position values, Backtester._align_data. -/
def alignedQ (P Q : Series) (R : Option Series) : List (Option ℚ) :=
  (commonIdx P Q R).map (lookup Q)

/-- Aligned risk-free values, Backtester._align_data. -/
def alignedR (P Q : Series) (R : Option Series) : Option (List (Option ℚ)) :=
  R.map (fun r => (commonIdx P Q R).map (lookup r))

/-- Net daily returns of a run, as a function of the raw inputs. -/
def netOfRun (P Q : Series) (R : Option Series) (costBps : ℚ) :
    List (Option ℚ) :=
  netReturns (alignedP P Q R) (alignedQ P Q R) (alignedR P Q R) costBps

/-- Backtester.__init__ alignment followed by Backtester.run; this is the
simulate contract of the specification.  An empty aligned index returns the
empty result (the source's early return). -/
def simulate (P Q : Series) (R : Option Series) (costBps : ℚ) : BacktestResult :=
  let idx := commonIdx P Q R
  let pv := alignedP P Q R
  let qv := alignedQ P Q R
  let rv := alignedR P Q R
  if idx.isEmpty then ⟨[], [], []⟩
  else
    ⟨idx.zip (equityCurve pv qv rv costBps),
     idx.zip (positionsFinal qv),
     idx.zip (tradesFinal qv)⟩

/-! Metrics (src/metrics.py).  Metric values live in ℝ because the source
uses log, sqrt and fractional powers; every metric is an Option, none
modelling the nan used by the source for "not computable". -/

/-- MetricsRecord: the five scalars of summarize, each independently absent
(nan in the source) or present. -/
structure MetricsRecord where
  cagr : Option ℝ
  sharpe : Option ℝ
  maxDrawdown : Option ℝ
  winRate : Option ℝ
  turnover : Option ℝ

/-- Mean of a list of reals (pandas Series.mean on a clean column). -/
noncomputable def rmean (l : List ℝ) : ℝ := l.sum / l.length

/-- Sample variance with ddof = 1 (the pandas Series.std default squared). -/
noncomputable def sampleVar (l : List ℝ) : ℝ :=
  ((l.map (fun x => (x - rmean l) ^ 2)).sum) / ((l.length : ℝ) - 1)

/-- Sample standard deviation, ddof = 1 (pandas Series.std default). -/
noncomputable def sampleStd (l : List ℝ) : ℝ := Real.sqrt (sampleVar l)

/-- An IEEE double as np.log and the Sharpe aggregations see it: a finite
real, a signed infinity, or nan. -/
inductive RVal
  | fin (x : ℝ)
  | pinf
  | ninf
  | nan

/-- Boolean nan test (what dropna inspects). -/
def isNanB : RVal → Bool
  | .nan => true
  | _ => false

/-- Boolean +inf test. -/
def isPinfB : RVal → Bool
  | .pinf => true
  | _ => false

/-- Boolean -inf test. -/
def isNinfB : RVal → Bool
  | .ninf => true
  | _ => false

/-- The finite entries of a float column, in order. -/
def finVals (l : List RVal) : List ℝ :=
  l.filterMap (fun v => match v with | .fin x => some x | _ => none)

/-- Payload of a finite value; the 0 default is never reached in any branch
below that uses it, since those branches require a finite value. -/
def finPart : RVal → ℝ
  | .fin x => x
  | _ => 0

/-- One entry of nav / nav.shift(1) under IEEE float division: a NaN
operand gives nan; division by an exactly zero NAV gives a signed infinity,
or nan for 0/0; otherwise the finite ratio. -/
def ratioF : Option ℚ → Option ℚ → RVal
  | some a, some b =>
      if a = 0 then
        if b = 0 then .nan
        else if 0 < b then .pinf
        else .ninf
      else .fin ((b / a : ℚ) : ℝ)
  | _, _ => .nan

/-- Elementwise nav / nav.shift(1): first entry nan, then ratioF. -/
def navRatios : List (Option ℚ) → List RVal
  | [] => []
  | x :: xs => RVal.nan :: List.zipWith ratioF (x :: xs) xs

open Classical in
/-- np.log elementwise: the real log on positives, -inf at zero, nan on
negatives and on nan, +inf at +inf, nan at -inf. -/
noncomputable def logF : RVal → RVal
  | .fin x => if 0 < x then .fin (Real.log x) else if x = 0 then .ninf else .nan
  | .pinf => .pinf
  | .ninf => .nan
  | .nan => .nan

/-- Series.dropna: removes nan entries only; infinities are kept. -/
def dropnaF (l : List RVal) : List RVal := l.filter (fun v => !isNanB v)

/-- Log returns np.log(nav / nav.shift(1)).dropna() of the Sharpe block:
the nan entries (first ratio, NaN cells, negative ratios, 0/0) are dropped;
a ratio of exactly zero stays as -inf, an infinite ratio stays as +inf. -/
noncomputable def logRets (navv : List (Option ℚ)) : List RVal :=
  dropnaF ((navRatios navv).map logF)

/-- Series.mean on a nan-free nonempty float column: a single-signed
infinity dominates the sum, mixed infinities give inf - inf = nan, and an
all-finite column gives the arithmetic mean; the empty column gives nan. -/
noncomputable def meanF (l : List RVal) : RVal :=
  if l.isEmpty then .nan
  else if l.any isNanB then .nan
  else if l.any isPinfB && l.any isNinfB then .nan
  else if l.any isPinfB then .pinf
  else if l.any isNinfB then .ninf
  else .fin (rmean (finVals l))

/-- Series.std with ddof = 1: nan on fewer than two entries (division by
ddof zero), nan as soon as any entry is nan or infinite (an infinite mean
makes some squared deviation inf - inf = nan), else the finite sample
standard deviation. -/
noncomputable def stdF (l : List RVal) : RVal :=
  if l.length < 2 then .nan
  else if l.any isNanB || l.any isPinfB || l.any isNinfB then .nan
  else .fin (sampleStd (finVals l))

/-- IEEE greater-than against a finite constant: nan and -inf compare
false, +inf true. -/
def gtF (v : RVal) (c : ℝ) : Prop :=
  match v with
  | .fin x => c < x
  | .pinf => True
  | _ => False

/-- IEEE less-or-equal against a finite constant: nan and +inf compare
false, -inf true. -/
def leF (v : RVal) (c : ℝ) : Prop :=
  match v with
  | .fin x => x ≤ c
  | .ninf => True
  | _ => False

/-- IEEE equality with 0.0: true only for a finite zero. -/
def eqZeroF (v : RVal) : Prop :=
  match v with
  | .fin x => x = 0
  | _ => False

open Classical in
/-- Sharpe ratio block of summarize: needs at least two kept log returns;
the ratio when the sample standard deviation compares greater than 1e-9
(so a finite one, a nan std from infinite entries fails this); exactly 0.0
when the mean compares equal to zero and the standard deviation at most
1e-9; absent otherwise. -/
noncomputable def sharpeOf (navv : List (Option ℚ)) : Option ℝ :=
  let L := logRets navv
  if 2 ≤ L.length then
    if gtF (stdF L) 1e-9 then
      some (Real.sqrt 252 * finPart (meanF L) / finPart (stdF L))
    else if eqZeroF (meanF L) ∧ leF (stdF L) 1e-9 then
      some 0
    else none
  else none

open Classical in
/-- CAGR block of summarize: annualize the endpoint NAV ratio over the
elapsed calendar days / 365.25, requiring defined endpoints, a non-zero
start and a period longer than 1e-6 years.  A negative endpoint ratio is
absent: float ** of a negative base is nan unless the exponent is
integer-valued, and 1 / years = 365.25 / days is never a non-zero integer
for integer day counts (4 * days would have to divide 1461 = 3 * 487). -/
noncomputable def cagrOf (dates : List ℤ) (navv : List (Option ℚ)) : Option ℝ :=
  let years : ℝ := ((dates.getLastD 0 - dates.headD 0 : ℤ) : ℝ) / 365.25
  match (navv.headD none), (navv.getLastD none) with
  | some s, some e =>
      if s ≠ 0 then
        if 1e-6 < years then
          if 0 ≤ ((e : ℝ) / (s : ℝ)) then
            some ((((e : ℝ) / (s : ℝ)) ^ (1 / years) - 1) * 100)
          else none
        else none
      else none
  | _, _ => none

/-- Running maximum of the defined NAV values (pandas cummax, skipna):
NaN cells stay NaN and do not update the running maximum. -/
def cummaxFrom (acc : Option ℚ) : List (Option ℚ) → List (Option ℚ)
  | [] => []
  | o :: rest =>
      match o with
      | some v =>
          let m := match acc with
            | some a => max a v
            | none => v
          some m :: cummaxFrom (some m) rest
      | none => none :: cummaxFrom acc rest

/-- Series.cummax with skipna semantics. -/
def cummax : List (Option ℚ) → List (Option ℚ) := cummaxFrom none

/-- Max drawdown block of summarize: drawdowns nav/cummax - 1 at the dates
where both are defined and the running maximum exceeds 1e-9; the reported
value is abs of the minimum, times 100; absent when no valid point exists. -/
noncomputable def mddOf (navv : List (Option ℚ)) : Option ℝ :=
  let dd : List ℚ := (navv.zip (cummax navv)).filterMap
    (fun vm => vm.1.bind fun v => vm.2.bind fun m =>
      if 1e-9 < m then some (v / m - 1) else none)
  match dd.min? with
  | some m => some (|(m : ℝ)| * 100)
  | none => none

/-- Win rate block of summarize: share of strictly positive arithmetic
day-over-day returns among the defined ones; absent when none are defined. -/
noncomputable def winRateOf (navv : List (Option ℚ)) : Option ℝ :=
  let rets : List ℚ := (pctChange navv).filterMap id
  if rets.isEmpty then none
  else some (((rets.countP (fun r => decide (0 < r)) : ℝ) / (rets.length : ℝ)) * 100)

/-- Sum of absolute values of the defined cells (pandas .abs().sum() with
skipna: a NaN cell contributes 0). -/
def sumAbs (tv : List (Option ℚ)) : ℚ := (tv.map (fun o => |o.getD 0|)).sum

/-- Turnover block of summarize, shared by the degenerate and the main
branch: sum(abs(trades)) / len(trades) * 100, absent for an empty column. -/
noncomputable def turnoverOf (tv : List (Option ℚ)) : Option ℝ :=
  if tv.isEmpty then none
  else some (((sumAbs tv / (tv.length : ℚ)) * 100 : ℚ) : ℝ)

/-- summarize of src/metrics.py: all metrics start absent; a NAV column
shorter than 2 points only ever fills Turnover; otherwise each block fills
its metric independently. -/
noncomputable def summarize (bt : BacktestResult) : MetricsRecord :=
  let navv := vals bt.equity_curve
  let tv := vals bt.trades
  if navv.length < 2 then
    { cagr := none, sharpe := none, maxDrawdown := none, winRate := none,
      turnover := turnoverOf tv }
  else
    { cagr := cagrOf (keys bt.equity_curve) navv,
      sharpe := sharpeOf navv,
      maxDrawdown := mddOf navv,
      winRate := winRateOf navv,
      turnover := turnoverOf tv }

/-! Dynamic-typing boundary (src/backtester.py lines 20-23, src/strategy.py
lines 15-21, and the absence of any such check in src/metrics.py).  A Python
argument is series-shaped, a BacktestResult, or something else. -/

/-- Python exceptions distinguished by the specification's error taxonomy:
TypeError is the spec's InvalidInputType, ValueError the spec's
InvalidParameter; AttributeError is what CPython raises when an attribute
is read off an object that lacks it. -/
inductive PyError
  | typeError
  | valueError
  | attributeError

/-- A dynamically typed Python argument as the boundary checks see it. -/
inductive PyVal
  | series (s : Series)
  | result (b : BacktestResult)
  | other

/-- Shape predicate used by the isinstance checks. -/
def isSeries : PyVal → Bool
  | .series _ => true
  | _ => false

/-- Backtester.__init__ boundary followed by the full run: a TypeError
exactly when prices, positions, or a supplied rf fails the isinstance
pandas-Series check (source lines 20-23); otherwise the simulation runs and
returns normally. -/
def backtesterInit (prices positions : PyVal) (rf : Option PyVal)
    (costBps : ℚ) : Except PyError BacktestResult :=
  match prices, positions with
  | .series p, .series q =>
      match rf with
      | none => .ok (simulate p q none costBps)
      | some (.series r) => .ok (simulate p q (some r) costBps)
      | some _ => .error .typeError
  | _, _ => .error .typeError

/-- summarize as called on a dynamically typed argument.  The source
performs no isinstance check: the first attribute read, bt.equity_curve,
raises AttributeError on anything that is not a BacktestResult; a
BacktestResult is processed unconditionally. -/
noncomputable def summarizeDyn (arg : PyVal) : Except PyError MetricsRecord :=
  match arg with
  | .result b => .ok (summarize b)
  | _ => .error .attributeError

/-! Signal generator (src/strategy.py). -/

/-- Rolling mean with window w and the default min_periods = w: defined from
the w-th entry on, and only when every cell of the window is defined. -/
def rollingMean (w : ℕ) (xs : List (Option ℚ)) : List (Option ℚ) :=
  (List.range xs.length).map (fun i =>
    if i + 1 < w then none
    else
      let win := (xs.take (i + 1)).drop (i + 1 - w)
      if win.all Option.isSome then some ((win.filterMap id).sum / (w : ℚ))
      else none)

/-- Series comparison sma_short > sma_long as pandas evaluates it: any
comparison involving NaN is false. -/
def gtO : Option ℚ → Option ℚ → Bool
  | some a, some b => decide (b < a)
  | _, _ => false

/-- Series.shift(1): drop the last entry and prepend NaN. -/
def shiftOne : List (Option ℚ) → List (Option ℚ)
  | [] => []
  | xs => none :: xs.dropLast

/-- Body of sma_crossover_signal on a non-empty series with valid windows:
two rolling means, 1 where the short one exceeds the long one else 0,
shifted by one day, NaN filled with 0 and cast to int. -/
def smaBody (s : Series) (short long : ℕ) : Series :=
  let px := vals s
  let sShort := rollingMean short px
  let sLong := rollingMean long px
  let pos : List ℚ := List.zipWith (fun a b => if gtO a b then 1 else 0) sShort sLong
  let shifted := shiftOne (pos.map some)
  (keys s).zip (shifted.map (fun o => some ((pyInt (o.getD 0) : ℚ))))

/-- sma_crossover_signal of src/strategy.py: TypeError for a non-series
argument; an empty input returns an empty integer series before any
parameter validation; then non-positive windows raise ValueError; otherwise
the crossover body runs. -/
def sma_crossover_signal (price : PyVal) (short long : ℤ) : Except PyError Series :=
  match price with
  | .series s =>
      if s.isEmpty then .ok []
      else if short ≤ 0 ∨ long ≤ 0 then .error .valueError
      else .ok (smaBody s short.toNat long.toNat)
  | _ => .error .typeError

/-! Length bookkeeping: every column produced by the run has the length of
the aligned index. -/

@[simp]
theorem map2_length (f : ℚ → ℚ → ℚ) (l1 l2 : List (Option ℚ)) :
    (map2 f l1 l2).length = min l1.length l2.length := by
  simp [map2]

@[simp]
theorem pctChange_length (l : List (Option ℚ)) :
    (pctChange l).length = l.length := by
  cases l with
  | nil => rfl
  | cons x xs => simp [pctChange]

@[simp]
theorem diffV_length (l : List (Option ℚ)) :
    (diffV l).length = l.length := by
  cases l with
  | nil => rfl
  | cons x xs => simp [diffV]

@[simp]
theorem fillna_length (v : ℚ) (l : List (Option ℚ)) :
    (fillna v l).length = l.length := by
  simp [fillna]

@[simp]
theorem absV_length (l : List (Option ℚ)) : (absV l).length = l.length := by
  simp [absV]

@[simp]
theorem scaleV_length (c : ℚ) (l : List (Option ℚ)) :
    (scaleV c l).length = l.length := by
  simp [scaleV]

@[simp]
theorem navLoop_length (prev : Option ℚ) (l : List (Option ℚ)) :
    (navLoop prev l).length = l.length := by
  induction l generalizing prev with
  | nil => rfl
  | cons r rs ih => simp [navLoop, ih]

@[simp]
theorem equityOf_length (l : List (Option ℚ)) :
    (equityOf l).length = l.length := by
  cases l with
  | nil => rfl
  | cons x xs => simp [equityOf]

@[simp]
theorem ffillFrom_length (acc : Option ℚ) (l : List (Option ℚ)) :
    (ffillFrom acc l).length = l.length := by
  induction l generalizing acc with
  | nil => rfl
  | cons o rest ih =>
    cases o with
    | some v => simp [ffillFrom, ih]
    | none => simp [ffillFrom, ih]

@[simp]
theorem ffill_length (l : List (Option ℚ)) : (ffill l).length = l.length :=
  ffillFrom_length none l

@[simp]
theorem tradesFinal_length (qv : List (Option ℚ)) :
    (tradesFinal qv).length = qv.length := by
  simp [tradesFinal, tradesTs]

@[simp]
theorem positionsFinal_length (qv : List (Option ℚ)) :
    (positionsFinal qv).length = qv.length := by
  simp [positionsFinal]

@[simp]
theorem rfComponent_length (qv : List (Option ℚ)) (rv : Option (List (Option ℚ))) :
    (rfComponent qv rv).length =
      match rv with
      | none => qv.length
      | some l => min qv.length l.length := by
  cases rv with
  | none => simp [rfComponent]
  | some l => simp [rfComponent]

theorem netReturns_length (pv qv : List (Option ℚ)) (rv : Option (List (Option ℚ)))
    (c : ℚ) (n : ℕ) (hp : pv.length = n) (hq : qv.length = n)
    (hr : ∀ l, rv = some l → l.length = n) :
    (netReturns pv qv rv c).length = n := by
  cases rv with
  | none =>
    simp [netReturns, grossReturns, activeReturns, transactionCosts, subV, addV,
      mulV, assetReturns, tradesTs, hp, hq]
  | some l =>
    have hl : l.length = n := hr l rfl
    simp [netReturns, grossReturns, activeReturns, transactionCosts, subV, addV,
      mulV, assetReturns, tradesTs, hp, hq, hl]

@[simp]
theorem equityCurve_length (pv qv : List (Option ℚ)) (rv : Option (List (Option ℚ)))
    (c : ℚ) : (equityCurve pv qv rv c).length = (netReturns pv qv rv c).length := by
  simp [equityCurve, equityRaw]

theorem alignedP_length (P Q : Series) (R : Option Series) :
    (alignedP P Q R).length = (commonIdx P Q R).length := by
  simp [alignedP]

theorem alignedQ_length (P Q : Series) (R : Option Series) :
    (alignedQ P Q R).length = (commonIdx P Q R).length := by
  simp [alignedQ]

theorem alignedR_length (P Q : Series) (R : Option Series) (l : List (Option ℚ)) :
    alignedR P Q R = some l → l.length = (commonIdx P Q R).length := by
  cases R with
  | none => simp [alignedR]
  | some r =>
    intro h
    simp [alignedR] at h
    simp [← h]

theorem netOfRun_length (P Q : Series) (R : Option Series) (c : ℚ) :
    (netOfRun P Q R c).length = (commonIdx P Q R).length :=
  netReturns_length _ _ _ _ _ (alignedP_length P Q R) (alignedQ_length P Q R)
    (alignedR_length P Q R)

/-! Definedness: after the two fillna(0) calls of run, every net daily
return is a defined number, hence so is every NAV value, and the trailing
forward fill is the identity. -/

theorem fillna_isSome (v : ℚ) (l : List (Option ℚ)) :
    ∀ o ∈ fillna v l, o.isSome := by
  intro o ho
  simp [fillna] at ho
  obtain ⟨a, _, rfl⟩ := ho
  rfl

theorem map2_isSome (f : ℚ → ℚ → ℚ) (l1 l2 : List (Option ℚ))
    (h1 : ∀ o ∈ l1, o.isSome) (h2 : ∀ o ∈ l2, o.isSome) :
    ∀ o ∈ map2 f l1 l2, o.isSome := by
  induction l1 generalizing l2 with
  | nil => intro o ho; simp [map2] at ho
  | cons a l1 ih =>
    cases l2 with
    | nil => intro o ho; simp [map2] at ho
    | cons b l2 =>
      intro o ho
      simp only [map2, List.zipWith_cons_cons, List.mem_cons] at ho
      rcases ho with rfl | ho
      · have ha : a.isSome := h1 a (by simp)
        have hb : b.isSome := h2 b (by simp)
        obtain ⟨x, rfl⟩ := Option.isSome_iff_exists.mp ha
        obtain ⟨y, rfl⟩ := Option.isSome_iff_exists.mp hb
        rfl
      · exact ih l2 (fun o ho => h1 o (by simp [ho]))
          (fun o ho => h2 o (by simp [ho])) o ho

theorem netReturns_isSome (pv qv : List (Option ℚ)) (rv : Option (List (Option ℚ)))
    (c : ℚ) : ∀ o ∈ netReturns pv qv rv c, o.isSome := by
  apply map2_isSome
  · apply map2_isSome
    · exact fillna_isSome 0 _
    · exact fillna_isSome 0 _
  · exact fillna_isSome 0 _

theorem navLoop_isSome (l : List (Option ℚ)) (prev : Option ℚ)
    (hp : prev.isSome) (hl : ∀ o ∈ l, o.isSome) :
    ∀ o ∈ navLoop prev l, o.isSome := by
  induction l generalizing prev with
  | nil => intro o ho; simp [navLoop] at ho
  | cons r rs ih =>
    obtain ⟨p, rfl⟩ := Option.isSome_iff_exists.mp hp
    have hr : r.isSome := hl r (by simp)
    obtain ⟨q, rfl⟩ := Option.isSome_iff_exists.mp hr
    intro o ho
    have hstep : navLoop (some p) (some q :: rs)
        = some (p * (1 + q)) :: navLoop (some (p * (1 + q))) rs := rfl
    rw [hstep] at ho
    rcases List.mem_cons.mp ho with rfl | ho
    · rfl
    · exact ih (some (p * (1 + q))) rfl (fun o ho => hl o (by simp [ho])) o ho

theorem equityOf_isSome (l : List (Option ℚ)) (hl : ∀ o ∈ l, o.isSome) :
    ∀ o ∈ equityOf l, o.isSome := by
  cases l with
  | nil => intro o ho; simp [equityOf] at ho
  | cons x xs =>
    intro o ho
    simp only [equityOf, List.mem_cons] at ho
    rcases ho with rfl | ho
    · rfl
    · exact navLoop_isSome xs (some 1) rfl (fun o ho => hl o (by simp [ho])) o ho

theorem ffillFrom_of_isSome (l : List (Option ℚ)) (acc : Option ℚ)
    (hl : ∀ o ∈ l, o.isSome) : ffillFrom acc l = l := by
  induction l generalizing acc with
  | nil => rfl
  | cons o rest ih =>
    have ho : o.isSome := hl o (by simp)
    obtain ⟨v, rfl⟩ := Option.isSome_iff_exists.mp ho
    simp only [ffillFrom]
    exact congrArg _ (ih (some v) (fun o ho => hl o (by simp [ho])))

theorem equityRaw_isSome (pv qv : List (Option ℚ)) (rv : Option (List (Option ℚ)))
    (c : ℚ) : ∀ o ∈ equityRaw pv qv rv c, o.isSome :=
  equityOf_isSome _ (netReturns_isSome pv qv rv c)

theorem equityCurve_eq_raw (pv qv : List (Option ℚ)) (rv : Option (List (Option ℚ)))
    (c : ℚ) : equityCurve pv qv rv c = equityRaw pv qv rv c :=
  ffillFrom_of_isSome _ none (equityRaw_isSome pv qv rv c)

/-! Concrete inputs of the specification's concrete scenario (claim C2). -/

/-- Prices 100, 110, 100, 100 on days 0..3. -/
def pricesC2 : Series := [(0, some 100), (1, some 110), (2, some 100), (3, some 100)]

/-- Positions 0, 1, 1, 0 on days 0..3 (already lagged). -/
def positionsC2 : Series := [(0, some 0), (1, some 1), (2, some 1), (3, some 0)]

/-- C2, counterexample: on prices [100,110,100,100], positions [0,1,1,0],
cost 10 bps, no risk-free series, the source's NAV on day 1 is
1 * (1 + 0.10 - 0.0005) = 1.0995, not the claimed 0.9995: the position held
during day 1 earns the +10% asset return of that day in addition to paying
the one-way cost. -/
theorem c2_counterexample :
    (vals (simulate pricesC2 positionsC2 none 10).equity_curve).getD 1 none
        = some (2199 / 2000) ∧ ((2199 : ℚ) / 2000) ≠ 9995 / 10000 := by
  constructor
  · norm_num [simulate, commonIdx, keys, vals, alignedP, alignedQ, alignedR, lookup,
      equityCurve, equityRaw, equityOf, netReturns, grossReturns, activeReturns,
      assetReturns, transactionCosts, tradesTs, rfComponent, subV, addV, mulV, map2,
      pctChange, diffV, fillna, absV, scaleV, ffill, ffillFrom, navLoop,
      oneWayCostRate, pricesC2, positionsC2]
  · norm_num

/-- C2, amended: the trade column is [0, 1, 0, -1] as claimed, and
equityCurve[1] = 1.0995 = 1 * (1 + 0.10 - 0.0005): day 1 combines the +10%
asset return earned while long with the 0.05% one-way cost of the
flat-to-long transition. -/
theorem c2_scenario :
    vals (simulate pricesC2 positionsC2 none 10).trades
        = [some 0, some 1, some 0, some (-1)] ∧
      (vals (simulate pricesC2 positionsC2 none 10).equity_curve).getD 1 none
        = some (2199 / 2000) := by
  constructor
  · norm_num [simulate, commonIdx, keys, vals, alignedP, alignedQ, alignedR, lookup,
      tradesFinal, tradesTs, diffV, pyInt, pricesC2, positionsC2]
  · norm_num [simulate, commonIdx, keys, vals, alignedP, alignedQ, alignedR, lookup,
      equityCurve, equityRaw, equityOf, netReturns, grossReturns, activeReturns,
      assetReturns, transactionCosts, tradesTs, rfComponent, subV, addV, mulV, map2,
      pctChange, diffV, fillna, absV, scaleV, ffill, ffillFrom, navLoop,
      oneWayCostRate, pricesC2, positionsC2]

/-! First-day invariants and definedness of the NAV column. -/

theorem equityCurve_head (pv qv : List (Option ℚ)) (rv : Option (List (Option ℚ)))
    (c : ℚ) (h : netReturns pv qv rv c ≠ []) :
    ∃ t, equityCurve pv qv rv c = some 1 :: t := by
  cases hn : netReturns pv qv rv c with
  | nil => exact absurd hn h
  | cons n0 ns =>
    refine ⟨ffillFrom (some 1) (navLoop (some 1) ns), ?_⟩
    simp [equityCurve, equityRaw, hn, equityOf, ffill, ffillFrom]

/-- C4, confirmed: for every non-empty aligned input, equityCurve[0] is
exactly 1.0 and trades[0] is exactly 0, whatever the initial position, the
cost parameter, and the risk-free series. -/
theorem c4_first_day (P Q : Series) (R : Option Series) (c : ℚ)
    (h : commonIdx P Q R ≠ []) :
    (vals (simulate P Q R c).equity_curve).getD 0 none = some 1 ∧
      (vals (simulate P Q R c).trades).getD 0 none = some 0 := by
  obtain ⟨d, rest, hidx⟩ : ∃ d rest, commonIdx P Q R = d :: rest := by
    cases hI : commonIdx P Q R with
    | nil => exact absurd hI h
    | cons d rest => exact ⟨d, rest, rfl⟩
  have hne : (commonIdx P Q R).isEmpty = false := by
    rw [hidx]; rfl
  have hq : alignedQ P Q R = lookup Q d :: rest.map (lookup Q) := by
    rw [alignedQ, hidx]; rfl
  have hnetlen : (netOfRun P Q R c).length = rest.length + 1 := by
    rw [netOfRun_length, hidx]; rfl
  have hnetne : netOfRun P Q R c ≠ [] := by
    intro hcon
    rw [hcon] at hnetlen
    exact Nat.succ_ne_zero _ hnetlen.symm
  obtain ⟨t, ht⟩ := equityCurve_head (alignedP P Q R) (alignedQ P Q R)
    (alignedR P Q R) c hnetne
  have hec : (equityCurve (alignedP P Q R) (alignedQ P Q R) (alignedR P Q R) c)
      = some 1 :: t := ht
  constructor
  · simp only [simulate, hne, Bool.false_eq_true, if_false, hidx, vals]
    rw [← hidx, hec, hidx]
    simp
  · simp only [simulate, hne, Bool.false_eq_true, if_false, hidx, vals]
    rw [← hidx, tradesFinal, tradesTs, hq]
    simp only [diffV, hidx]
    simp [pyInt]

/-- C4 witness at the concrete scenario inputs. -/
theorem c4_first_day_witness :
    (vals (simulate pricesC2 positionsC2 none 10).equity_curve).getD 0 none = some 1 ∧
      (vals (simulate pricesC2 positionsC2 none 10).trades).getD 0 none = some 0 :=
  c4_first_day pricesC2 positionsC2 none 10 (by decide)

/-- C10, confirmed: with a non-empty aligned index and fully defined input
values, every NAV entry is defined, because each return component has its
undefined cells replaced by 0 before compounding; consequently the trailing
forward fill of the source changes nothing. -/
theorem c10_defined (P Q : Series) (R : Option Series) (c : ℚ)
    (hne : commonIdx P Q R ≠ [])
    (hP : ∀ pr ∈ P, pr.2.isSome) (hQ : ∀ pr ∈ Q, pr.2.isSome)
    (hR : ∀ r, R = some r → ∀ pr ∈ r, pr.2.isSome) :
    (∀ o ∈ vals (simulate P Q R c).equity_curve, o.isSome) ∧
      ffill (equityRaw (alignedP P Q R) (alignedQ P Q R) (alignedR P Q R) c)
        = equityRaw (alignedP P Q R) (alignedQ P Q R) (alignedR P Q R) c := by
  constructor
  · intro o ho
    have hsub : o ∈ equityCurve (alignedP P Q R) (alignedQ P Q R) (alignedR P Q R) c := by
      by_cases hI : (commonIdx P Q R).isEmpty
      · simp [simulate, hI, vals] at ho
      · simp only [simulate, Bool.not_eq_true] at *
        simp only [hI, Bool.false_eq_true, if_false, vals, List.mem_map] at ho
        obtain ⟨pr, hpr, rfl⟩ := ho
        exact (List.of_mem_zip hpr).2
    rw [equityCurve_eq_raw] at hsub
    exact equityRaw_isSome _ _ _ _ o hsub
  · exact equityCurve_eq_raw (alignedP P Q R) (alignedQ P Q R) (alignedR P Q R) c

/-- C10 witness at the concrete scenario inputs. -/
theorem c10_defined_witness :
    (∀ o ∈ vals (simulate pricesC2 positionsC2 none 10).equity_curve, o.isSome) ∧
      ffill (equityRaw (alignedP pricesC2 positionsC2 none)
          (alignedQ pricesC2 positionsC2 none) (alignedR pricesC2 positionsC2 none) 10)
        = equityRaw (alignedP pricesC2 positionsC2 none)
            (alignedQ pricesC2 positionsC2 none) (alignedR pricesC2 positionsC2 none) 10 :=
  c10_defined pricesC2 positionsC2 none 10 (by decide) (by decide) (by decide)
    (by intro r hr; cases hr)

/-! Alignment: the common index is the ordered intersection of the input
indexes, and every output column is indexed by it. -/

theorem tradesFinal_alignedQ_length (P Q : Series) (R : Option Series) :
    (tradesFinal (alignedQ P Q R)).length = (commonIdx P Q R).length := by
  rw [tradesFinal_length, alignedQ_length]

theorem positionsFinal_alignedQ_length (P Q : Series) (R : Option Series) :
    (positionsFinal (alignedQ P Q R)).length = (commonIdx P Q R).length := by
  rw [positionsFinal_length, alignedQ_length]

theorem equityCurve_run_length (P Q : Series) (R : Option Series) (c : ℚ) :
    (equityCurve (alignedP P Q R) (alignedQ P Q R) (alignedR P Q R) c).length
      = (commonIdx P Q R).length := by
  rw [equityCurve_length]
  exact netOfRun_length P Q R c

/-- C5, confirmed: all three output columns of simulate are indexed by the
common index; a date belongs to the common index exactly when it belongs to
every input index; an empty intersection yields the empty result without an
error; and the common index inherits the strictly increasing order of the
prices index. -/
theorem c5_alignment (P Q : Series) (R : Option Series) (c : ℚ) :
    (keys (simulate P Q R c).equity_curve = commonIdx P Q R ∧
      keys (simulate P Q R c).positions = commonIdx P Q R ∧
      keys (simulate P Q R c).trades = commonIdx P Q R) ∧
    (∀ d : ℤ, d ∈ commonIdx P Q R ↔
      d ∈ keys P ∧ d ∈ keys Q ∧ ∀ r, R = some r → d ∈ keys r) ∧
    (commonIdx P Q R = [] →
      (simulate P Q R c).equity_curve = [] ∧
        (simulate P Q R c).positions = [] ∧ (simulate P Q R c).trades = []) ∧
    (List.Sorted (· < ·) (keys P) → List.Sorted (· < ·) (commonIdx P Q R)) := by
  refine ⟨?_, ?_, ?_, ?_⟩
  · by_cases hI : (commonIdx P Q R).isEmpty
    · have hnil : commonIdx P Q R = [] := by
        cases hc : commonIdx P Q R with
        | nil => rfl
        | cons a l => rw [hc] at hI; simp [List.isEmpty] at hI
      simp [simulate, hI, keys, hnil]
    · have hI' : (commonIdx P Q R).isEmpty = false := by
        exact Bool.not_eq_true _ ▸ eq_false_of_ne_true hI
      refine ⟨?_, ?_, ?_⟩ <;>
        · simp only [simulate, hI', Bool.false_eq_true, if_false, keys]
          rw [List.map_fst_zip]
          first
            | rw [equityCurve_run_length]
            | rw [tradesFinal_alignedQ_length]
            | rw [positionsFinal_alignedQ_length]
  · intro d
    cases R with
    | none =>
      simp [commonIdx, keys, List.mem_filter]
    | some r =>
      simp [commonIdx, keys, List.mem_filter, and_assoc]
  · intro hnil
    have hI : (commonIdx P Q R).isEmpty = true := by rw [hnil]; rfl
    refine ⟨?_, ?_, ?_⟩ <;> simp [simulate, hI]
  · intro hs
    cases R with
    | none => exact hs.filter _
    | some r => exact hs.filter _

/-- C5 witness: a concrete partially overlapping triple, and a concrete
disjoint pair whose simulation is the empty result. -/
theorem c5_alignment_witness :
    keys (simulate [(0, some 1), (1, some 2), (5, some 3)]
        [(1, some 1), (2, some 0), (5, some 0)] (some [(1, some 3), (7, some 3)])
        10).equity_curve = [1] ∧
      (simulate [(0, some 1)] [(2, some 1)] none 10).equity_curve = [] := by
  constructor
  · rw [(c5_alignment [(0, some 1), (1, some 2), (5, some 3)]
      [(1, some 1), (2, some 0), (5, some 0)] (some [(1, some 3), (7, some 3)]) 10).1.1]
    decide
  · exact ((c5_alignment [(0, some 1)] [(2, some 1)] none 10).2.2.1 (by decide)).1

/-! Cost monotonicity machinery.  The per-day NAV factor is 1 + net return;
raising the cost parameter lowers every net return, and as long as the
factors of the dearer run stay nonnegative the pointwise product comparison
goes through. -/

@[simp]
theorem navLoop_cons_some (a q : ℚ) (t : List (Option ℚ)) :
    navLoop (some a) (some q :: t)
      = some (a * (1 + q)) :: navLoop (some (a * (1 + q))) t := rfl

theorem absV_mem_nonneg (l : List (Option ℚ)) :
    ∀ o ∈ absV l, ∀ x : ℚ, o = some x → 0 ≤ x := by
  intro o ho x hx
  simp only [absV, List.mem_map] at ho
  obtain ⟨a, _, rfl⟩ := ho
  cases a with
  | none => cases hx
  | some v =>
    have h2 : some |v| = some x := hx
    rw [← Option.some.inj h2]
    exact abs_nonneg v

theorem sub_costs_mono (r1 r2 : ℚ) (hr : r1 ≤ r2) :
    ∀ (G A : List (Option ℚ)), (∀ g ∈ G, g.isSome) →
      (∀ a ∈ A, ∀ x : ℚ, a = some x → 0 ≤ x) →
      List.Forall₂ (fun o2 o1 => ∃ q2 q1 : ℚ, o2 = some q2 ∧ o1 = some q1 ∧ q2 ≤ q1)
        (subV G (fillna 0 (scaleV r2 A))) (subV G (fillna 0 (scaleV r1 A))) := by
  intro G
  induction G with
  | nil =>
    intro A _ _
    exact List.Forall₂.nil
  | cons g gs ih =>
    intro A hG hA
    cases A with
    | nil =>
      exact List.Forall₂.nil
    | cons a as =>
      have hg : g.isSome := hG g (by simp)
      obtain ⟨gq, rfl⟩ := Option.isSome_iff_exists.mp hg
      have hcost : (Option.map (fun x => x * r1) a).getD 0
          ≤ (Option.map (fun x => x * r2) a).getD 0 := by
        cases a with
        | none => simp
        | some x =>
          have hx : 0 ≤ x := hA (some x) (by simp) x rfl
          simpa using mul_le_mul_of_nonneg_left hr hx
      have hstep2 : subV (some gq :: gs) (fillna 0 (scaleV r2 (a :: as)))
          = some (gq - (Option.map (fun x => x * r2) a).getD 0)
            :: subV gs (fillna 0 (scaleV r2 as)) := rfl
      have hstep1 : subV (some gq :: gs) (fillna 0 (scaleV r1 (a :: as)))
          = some (gq - (Option.map (fun x => x * r1) a).getD 0)
            :: subV gs (fillna 0 (scaleV r1 as)) := rfl
      rw [hstep2, hstep1]
      refine List.Forall₂.cons ⟨_, _, rfl, rfl, by linarith⟩ ?_
      exact ih as (fun o ho => hG o (by simp [ho]))
        (fun o ho x hx => hA o (by simp [ho]) x hx)

theorem netReturns_cost_mono (pv qv : List (Option ℚ))
    (rv : Option (List (Option ℚ))) (c1 c2 : ℚ) (hc : c1 ≤ c2) :
    List.Forall₂ (fun o2 o1 => ∃ q2 q1 : ℚ, o2 = some q2 ∧ o1 = some q1 ∧ q2 ≤ q1)
      (netReturns pv qv rv c2) (netReturns pv qv rv c1) := by
  have hG : ∀ g ∈ grossReturns pv qv rv, g.isSome :=
    map2_isSome _ _ _ (fillna_isSome 0 _) (fillna_isSome 0 _)
  have hr : oneWayCostRate c1 ≤ oneWayCostRate c2 := by
    unfold oneWayCostRate
    linarith
  exact sub_costs_mono (oneWayCostRate c1) (oneWayCostRate c2) hr
    (grossReturns pv qv rv) (absV (tradesTs qv)) hG (absV_mem_nonneg _)

theorem navLoop_mono :
    ∀ l2 l1 : List (Option ℚ),
      List.Forall₂ (fun o2 o1 => ∃ q2 q1 : ℚ, o2 = some q2 ∧ o1 = some q1 ∧ q2 ≤ q1)
        l2 l1 →
      (∀ o ∈ l2, 0 ≤ 1 + o.getD 0) →
      ∀ a2 a1 : ℚ, 0 ≤ a2 → a2 ≤ a1 →
        List.Forall₂
          (fun o2 o1 => ∃ q2 q1 : ℚ, o2 = some q2 ∧ o1 = some q1 ∧ q2 ≤ q1 ∧ 0 ≤ q2)
          (navLoop (some a2) l2) (navLoop (some a1) l1) := by
  intro l2 l1 h
  induction h with
  | nil =>
    intro _ a2 a1 _ _
    exact List.Forall₂.nil
  | @cons o2 o1 t2 t1 hr hrest ih =>
    intro hfac a2 a1 ha2 hle
    obtain ⟨q2, q1, rfl, rfl, hq⟩ := hr
    have hfq : 0 ≤ 1 + q2 := by simpa using hfac (some q2) (by simp)
    rw [navLoop_cons_some, navLoop_cons_some]
    have hhead : a2 * (1 + q2) ≤ a1 * (1 + q1) := by
      calc a2 * (1 + q2) ≤ a1 * (1 + q2) := mul_le_mul_of_nonneg_right hle hfq
        _ ≤ a1 * (1 + q1) :=
          mul_le_mul_of_nonneg_left (by linarith) (le_trans ha2 hle)
    refine List.Forall₂.cons ⟨_, _, rfl, rfl, hhead, mul_nonneg ha2 hfq⟩ ?_
    exact ih (fun o ho => hfac o (by simp [ho])) _ _ (mul_nonneg ha2 hfq) hhead

theorem equityOf_mono (l2 l1 : List (Option ℚ))
    (h : List.Forall₂ (fun o2 o1 => ∃ q2 q1 : ℚ, o2 = some q2 ∧ o1 = some q1 ∧ q2 ≤ q1)
      l2 l1)
    (hfac : ∀ o ∈ l2.tail, 0 ≤ 1 + o.getD 0) :
    List.Forall₂
      (fun o2 o1 => ∃ q2 q1 : ℚ, o2 = some q2 ∧ o1 = some q1 ∧ q2 ≤ q1 ∧ 0 ≤ q2)
      (equityOf l2) (equityOf l1) := by
  cases h with
  | nil => exact List.Forall₂.nil
  | @cons o2 o1 t2 t1 hr hrest =>
    refine List.Forall₂.cons ⟨1, 1, rfl, rfl, le_refl 1, zero_le_one⟩ ?_
    exact navLoop_mono t2 t1 hrest hfac 1 1 zero_le_one (le_refl 1)

theorem forall₂_isSome_left {l2 l1 : List (Option ℚ)}
    (h : List.Forall₂
      (fun o2 o1 => ∃ q2 q1 : ℚ, o2 = some q2 ∧ o1 = some q1 ∧ q2 ≤ q1 ∧ 0 ≤ q2)
      l2 l1) : ∀ o ∈ l2, o.isSome := by
  induction h with
  | nil => intro o ho; cases ho
  | cons hr hrest ih =>
    intro o ho
    rcases List.mem_cons.mp ho with rfl | ho
    · obtain ⟨q2, q1, rfl, _, _, _⟩ := hr
      rfl
    · exact ih o ho

theorem forall₂_isSome_right {l2 l1 : List (Option ℚ)}
    (h : List.Forall₂
      (fun o2 o1 => ∃ q2 q1 : ℚ, o2 = some q2 ∧ o1 = some q1 ∧ q2 ≤ q1 ∧ 0 ≤ q2)
      l2 l1) : ∀ o ∈ l1, o.isSome := by
  induction h with
  | nil => intro o ho; cases ho
  | cons hr hrest ih =>
    intro o ho
    rcases List.mem_cons.mp ho with rfl | ho
    · obtain ⟨q2, q1, _, rfl, _, _⟩ := hr
      rfl
    · exact ih o ho

/-- C3, counterexample: with prices [100,30,100,30] and positions [0,1,0,1],
costs 4000 and 10000 bps give day-3 NAVs 1/125 and 1/50: the dearer run
ends higher, because two of its daily factors are negative and their product
is positive.  The claim as stated (monotone for every pair c1 ≤ c2) is
false. -/
theorem c3_counterexample :
    (vals (simulate [(0, some 100), (1, some 30), (2, some 100), (3, some 30)]
        [(0, some 0), (1, some 1), (2, some 0), (3, some 1)] none 4000).equity_curve).getD
        3 none = some (1 / 125) ∧
      (vals (simulate [(0, some 100), (1, some 30), (2, some 100), (3, some 30)]
          [(0, some 0), (1, some 1), (2, some 0), (3, some 1)] none 10000).equity_curve).getD
          3 none = some (1 / 50) ∧
      ¬ ((1 : ℚ) / 50 ≤ 1 / 125) := by
  refine ⟨?_, ?_, by norm_num⟩ <;>
    norm_num [simulate, commonIdx, keys, vals, alignedP, alignedQ, alignedR, lookup,
      equityCurve, equityRaw, equityOf, netReturns, grossReturns, activeReturns,
      assetReturns, transactionCosts, tradesTs, rfComponent, subV, addV, mulV, map2,
      pctChange, diffV, fillna, absV, scaleV, ffill, ffillFrom, navLoop, oneWayCostRate]

/-- C3, amended: for c1 ≤ c2, if every day's net return of the dearer run
keeps its NAV factor 1 + net nonnegative (no single day loses more than
100%), then the dearer equity curve is pointwise at most the cheaper one,
both being defined everywhere. -/
theorem c3_monotone (P Q : Series) (R : Option Series) (c1 c2 : ℚ) (hc : c1 ≤ c2)
    (hfac : ∀ o ∈ (netOfRun P Q R c2).tail, 0 ≤ 1 + o.getD 0) :
    List.Forall₂ (fun o2 o1 => ∃ q2 q1 : ℚ, o2 = some q2 ∧ o1 = some q1 ∧ q2 ≤ q1)
      (vals (simulate P Q R c2).equity_curve)
      (vals (simulate P Q R c1).equity_curve) := by
  by_cases hI : (commonIdx P Q R).isEmpty
  · simp only [simulate, hI, if_true, vals, List.map_nil]
    exact List.Forall₂.nil
  · have hI' : (commonIdx P Q R).isEmpty = false := eq_false_of_ne_true hI
    simp only [simulate, hI', Bool.false_eq_true, if_false, vals]
    rw [List.map_snd_zip _ _ (le_of_eq (equityCurve_run_length P Q R c2)),
      List.map_snd_zip _ _ (le_of_eq (equityCurve_run_length P Q R c1))]
    have hnet := netReturns_cost_mono (alignedP P Q R) (alignedQ P Q R)
      (alignedR P Q R) c1 c2 hc
    have heq := equityOf_mono _ _ hnet hfac
    rw [equityCurve_eq_raw, equityCurve_eq_raw]
    exact heq.imp (fun a b hx => by
      obtain ⟨q2, q1, h2, h1, hle, _⟩ := hx
      exact ⟨q2, q1, h2, h1, hle⟩)

/-- C3 witness: two days of prices 100 then 110, long throughout, costs 0
and 10 bps; the dearer run's factors are nonnegative and its curve is
pointwise at most the cheaper one. -/
theorem c3_monotone_witness :
    List.Forall₂ (fun o2 o1 => ∃ q2 q1 : ℚ, o2 = some q2 ∧ o1 = some q1 ∧ q2 ≤ q1)
      (vals (simulate [(0, some 100), (1, some 110)]
        [(0, some 1), (1, some 1)] none 10).equity_curve)
      (vals (simulate [(0, some 100), (1, some 110)]
        [(0, some 1), (1, some 1)] none 0).equity_curve) :=
  c3_monotone [(0, some 100), (1, some 110)] [(0, some 1), (1, some 1)] none 0 10
    (by norm_num)
    (by
      norm_num [netOfRun, netReturns, grossReturns, activeReturns, assetReturns,
        transactionCosts, tradesTs, rfComponent, subV, addV, mulV, map2, pctChange,
        diffV, fillna, absV, scaleV, oneWayCostRate, alignedP, alignedQ, alignedR,
        commonIdx, keys, lookup])

/-! Turnover: both branches of summarize fill Turnover by the same formula,
and a 0/1 position input keeps every trade in {-1, 0, 1}. -/

theorem summarize_turnover (bt : BacktestResult) :
    (summarize bt).turnover = turnoverOf (vals bt.trades) := by
  by_cases h : (vals bt.equity_curve).length < 2 <;> simp [summarize, h]

theorem lookup_mem_or (s : Series) (d : ℤ) :
    lookup s d = none ∨ ∃ pr ∈ s, lookup s d = pr.2 := by
  cases hf : s.find? (fun p => p.1 == d) with
  | none => left; simp [lookup, hf]
  | some p =>
    right
    exact ⟨p, List.mem_of_find?_eq_some hf, by simp [lookup, hf]⟩

theorem alignedQ_mem_or (P Q : Series) (R : Option Series)
    (hQ : ∀ pr ∈ Q, pr.2 = some 0 ∨ pr.2 = some 1) :
    ∀ o ∈ alignedQ P Q R, o = none ∨ o = some 0 ∨ o = some 1 := by
  intro o ho
  simp only [alignedQ, List.mem_map] at ho
  obtain ⟨d, _, rfl⟩ := ho
  rcases lookup_mem_or Q d with h | ⟨pr, hpr, h⟩
  · exact Or.inl h
  · rw [h]
    exact Or.inr (hQ pr hpr)

theorem diffV_zip_mem (cond res : Option ℚ → Prop)
    (hnone : res none)
    (hsome : ∀ a b : ℚ, cond (some a) → cond (some b) → res (some (b - a))) :
    ∀ (xs : List (Option ℚ)) (x : Option ℚ), cond x → (∀ o ∈ xs, cond o) →
      ∀ o ∈ List.zipWith (fun prev cur => prev.bind fun a => cur.map fun b => b - a)
        (x :: xs) xs, res o := by
  intro xs
  induction xs with
  | nil => intro x _ _ o ho; cases ho
  | cons y ys ih =>
    intro x hx hxs o ho
    rcases List.mem_cons.mp ho with rfl | ho
    · cases x with
      | none => exact hnone
      | some a =>
        cases y with
        | none => exact hnone
        | some b => exact hsome a b hx (hxs (some b) (by simp))
    · exact ih y (hxs y (by simp)) (fun o ho => hxs o (by simp [ho])) o ho

theorem diffV_mem_cases (qv : List (Option ℚ))
    (h01 : ∀ o ∈ qv, o = none ∨ o = some 0 ∨ o = some 1) :
    ∀ o ∈ diffV qv, o = none ∨ o = some 0 ∨ o = some 1 ∨ o = some (-1) := by
  cases qv with
  | nil => intro o ho; cases ho
  | cons x xs =>
    intro o ho
    simp only [diffV] at ho
    rcases List.mem_cons.mp ho with rfl | ho
    · exact Or.inl rfl
    · refine diffV_zip_mem
        (fun o => o = none ∨ o = some 0 ∨ o = some 1)
        (fun o => o = none ∨ o = some 0 ∨ o = some 1 ∨ o = some (-1))
        (Or.inl rfl) ?_ xs x (h01 x (by simp))
        (fun o ho2 => h01 o (by simp [ho2])) o ho
      intro a b hca hcb
      rcases hca with hca | hca | hca <;> rcases hcb with hcb | hcb | hcb <;>
        simp_all

theorem tradesFinal_abs_le (qv : List (Option ℚ))
    (h01 : ∀ o ∈ qv, o = none ∨ o = some 0 ∨ o = some 1) :
    ∀ o ∈ tradesFinal qv, |o.getD 0| ≤ 1 := by
  intro o ho
  simp only [tradesFinal, tradesTs, List.mem_map] at ho
  obtain ⟨a, ha, rfl⟩ := ho
  rcases diffV_mem_cases qv h01 a ha with rfl | rfl | rfl | rfl <;>
    norm_num [pyInt]

/-- C9, confirmed: whenever the position input takes only the values 0 and
1, the Turnover metric, when present, is sum(abs(trades)) / len(trades) *
100 and lies in [0, 100]. -/
theorem c9_turnover (P Q : Series) (R : Option Series) (c : ℚ)
    (hQ : ∀ pr ∈ Q, pr.2 = some 0 ∨ pr.2 = some 1) :
    ∀ x : ℝ, (summarize (simulate P Q R c)).turnover = some x →
      x = (((sumAbs (vals (simulate P Q R c).trades)
            / ((vals (simulate P Q R c).trades).length : ℚ)) * 100 : ℚ) : ℝ)
        ∧ 0 ≤ x ∧ x ≤ 100 := by
  intro x hx
  rw [summarize_turnover] at hx
  by_cases hE : (vals (simulate P Q R c).trades).isEmpty
  · simp only [turnoverOf, hE, if_true] at hx
    cases hx
  · have hE' : (vals (simulate P Q R c).trades).isEmpty = false :=
      eq_false_of_ne_true hE
    simp only [turnoverOf, hE', Bool.false_eq_true, if_false,
      Option.some.injEq] at hx
    have habs : ∀ o ∈ vals (simulate P Q R c).trades, |o.getD 0| ≤ 1 := by
      by_cases hI : (commonIdx P Q R).isEmpty
      · intro o ho
        simp [simulate, hI, vals] at ho
      · have hI' : (commonIdx P Q R).isEmpty = false := eq_false_of_ne_true hI
        intro o ho
        simp only [simulate, hI', Bool.false_eq_true, if_false, vals] at ho
        rw [List.map_snd_zip _ _
          (le_of_eq (tradesFinal_alignedQ_length P Q R))] at ho
        exact tradesFinal_abs_le (alignedQ P Q R)
          (alignedQ_mem_or P Q R hQ) o ho
    have hnil : vals (simulate P Q R c).trades ≠ [] := by
      intro hcon
      rw [hcon] at hE
      exact hE rfl
    have hlen : 0 < ((vals (simulate P Q R c).trades).length : ℚ) := by
      have hp : 0 < (vals (simulate P Q R c).trades).length :=
        List.length_pos.mpr hnil
      exact_mod_cast hp
    have hsum_nonneg : 0 ≤ sumAbs (vals (simulate P Q R c).trades) := by
      apply List.sum_nonneg
      intro y hy
      simp only [List.mem_map] at hy
      obtain ⟨o, _, rfl⟩ := hy
      exact abs_nonneg _
    have hsum_le : sumAbs (vals (simulate P Q R c).trades)
        ≤ ((vals (simulate P Q R c).trades).length : ℚ) := by
      have h := List.sum_le_card_nsmul
        ((vals (simulate P Q R c).trades).map (fun o => |o.getD 0|)) 1
        (by
          intro y hy
          simp only [List.mem_map] at hy
          obtain ⟨o, ho, rfl⟩ := hy
          exact habs o ho)
      simpa [sumAbs, nsmul_eq_mul] using h
    have hr0 : 0 ≤ (sumAbs (vals (simulate P Q R c).trades)
        / ((vals (simulate P Q R c).trades).length : ℚ)) * 100 := by
      apply mul_nonneg (div_nonneg hsum_nonneg (le_of_lt hlen))
      norm_num
    have hr100 : (sumAbs (vals (simulate P Q R c).trades)
        / ((vals (simulate P Q R c).trades).length : ℚ)) * 100 ≤ 100 := by
      have hdiv : sumAbs (vals (simulate P Q R c).trades)
          / ((vals (simulate P Q R c).trades).length : ℚ) ≤ 1 :=
        (div_le_one hlen).mpr hsum_le
      nlinarith
    refine ⟨hx.symm, ?_, ?_⟩
    · rw [← hx]
      exact_mod_cast hr0
    · rw [← hx]
      exact_mod_cast hr100

/-- C9 witness: prices flat over two days, position 0 then 1, one trade out
of two days, Turnover 50, inside [0, 100]. -/
theorem c9_turnover_witness :
    ∃ x : ℝ, (summarize (simulate [(0, some 1), (1, some 1)]
        [(0, some 0), (1, some 1)] none 10)).turnover = some x
      ∧ 0 ≤ x ∧ x ≤ 100 := by
  have hq : ∀ pr ∈ ([(0, some 0), (1, some 1)] : Series),
      pr.2 = some 0 ∨ pr.2 = some 1 := by decide
  have htr : vals (simulate [(0, some 1), (1, some 1)]
      [(0, some 0), (1, some 1)] none 10).trades = [some 0, some 1] := by
    norm_num [simulate, commonIdx, keys, vals, alignedP, alignedQ, alignedR,
      lookup, tradesFinal, tradesTs, diffV, pyInt]
  have hx : (summarize (simulate [(0, some 1), (1, some 1)]
      [(0, some 0), (1, some 1)] none 10)).turnover
      = some (((sumAbs [some 0, some 1]
          / (([some 0, some (1 : ℚ)] : List (Option ℚ)).length : ℚ)) * 100 : ℚ) : ℝ) := by
    rw [summarize_turnover, htr]
    rfl
  exact ⟨_, hx,
    (c9_turnover [(0, some 1), (1, some 1)] [(0, some 0), (1, some 1)]
      none 10 hq _ hx).2⟩

end Backtest

namespace Backtest

/-! Degenerate-input policy of summarize, and the dynamic-typing boundary. -/

theorem turnoverOf_eq (tv : List (Option ℚ)) :
    turnoverOf tv
      = if tv = [] then none
        else some (((sumAbs tv / (tv.length : ℚ)) * 100 : ℚ) : ℝ) := by
  cases tv with
  | nil => simp [turnoverOf]
  | cons a l => simp [turnoverOf]

/-- C6, confirmed: a NAV column shorter than 2 points makes every metric
absent except Turnover, which is sum(abs(trades)) / len(trades) * 100 for a
non-empty trades column and absent for an empty one; in particular
summarize of the empty result is entirely absent, and summarize is a total
function (it never raises). -/
theorem c6_degenerate (bt : BacktestResult)
    (h : (vals bt.equity_curve).length < 2) :
    (summarize bt).cagr = none ∧ (summarize bt).sharpe = none ∧
      (summarize bt).maxDrawdown = none ∧ (summarize bt).winRate = none ∧
      (summarize bt).turnover
        = (if vals bt.trades = [] then none
           else some (((sumAbs (vals bt.trades)
             / ((vals bt.trades).length : ℚ)) * 100 : ℚ) : ℝ)) ∧
      summarize ⟨[], [], []⟩ = ⟨none, none, none, none, none⟩ := by
  refine ⟨?_, ?_, ?_, ?_, ?_, ?_⟩
  · simp [summarize, h]
  · simp [summarize, h]
  · simp [summarize, h]
  · simp [summarize, h]
  · rw [summarize_turnover, turnoverOf_eq]
  · simp [summarize, vals, turnoverOf]

/-- C6 witness: a one-point NAV with one recorded trade keeps only
Turnover, at value 100. -/
theorem c6_degenerate_witness :
    (summarize ⟨[(0, some 1)], [(0, some 1)], [(0, some 1)]⟩).sharpe = none ∧
      (summarize ⟨[(0, some 1)], [(0, some 1)], [(0, some 1)]⟩).turnover
        = (if vals [(0, some 1)] = [] then none
           else some (((sumAbs (vals [(0, some 1)])
             / ((vals [(0, some (1 : ℚ))] : List (Option ℚ)).length : ℚ)) * 100 : ℚ) : ℝ)) := by
  have h := c6_degenerate ⟨[(0, some 1)], [(0, some 1)], [(0, some 1)]⟩ (by decide)
  exact ⟨h.2.1, h.2.2.2.2.1⟩

/-- C7, counterexample: summarize performs no isinstance check; handed a
non-series-shaped argument it fails with AttributeError on the attribute
read bt.equity_curve, which is not the InvalidInputType (TypeError) the
claim promises. -/
theorem c7_counterexample :
    summarizeDyn PyVal.other = Except.error PyError.attributeError ∧
      (Except.error PyError.attributeError : Except PyError MetricsRecord)
        ≠ Except.error PyError.typeError := by
  constructor
  · rfl
  · intro h
    injection h with h2
    exact PyError.noConfusion h2

/-- C7, amended: the Backtester constructor raises InvalidInputType
(TypeError) exactly when one of prices, positions, or a supplied rf is not
series-shaped, and never for series-shaped degenerate input; summarize has
no type boundary of its own: it never raises TypeError, and it processes
every BacktestResult unconditionally. -/
theorem c7_boundary :
    (∀ p q : PyVal, ∀ r : Option PyVal, ∀ c : ℚ,
      (backtesterInit p q r c = Except.error PyError.typeError ↔
        isSeries p = false ∨ isSeries q = false ∨
          ∃ v, r = some v ∧ isSeries v = false)) ∧
    (∀ a : PyVal, summarizeDyn a ≠ Except.error PyError.typeError) ∧
    (∀ b : BacktestResult,
      summarizeDyn (PyVal.result b) = Except.ok (summarize b)) := by
  refine ⟨?_, ?_, ?_⟩
  · intro p q r c
    rcases r with _ | v
    · cases p <;> cases q <;> simp [backtesterInit, isSeries]
    · cases p <;> cases q <;> cases v <;> simp [backtesterInit, isSeries]
  · intro a h
    cases a <;> simp [summarizeDyn] at h
  · intro b
    rfl

/-- C7 witness: a non-series prices argument is rejected with TypeError,
and a well-shaped result is summarized without error. -/
theorem c7_boundary_witness :
    backtesterInit PyVal.other PyVal.other none 10
        = Except.error PyError.typeError ∧
      summarizeDyn (PyVal.result ⟨[], [], []⟩)
        = Except.ok (summarize ⟨[], [], []⟩) :=
  ⟨(c7_boundary.1 PyVal.other PyVal.other none 10).mpr (Or.inl rfl),
   c7_boundary.2.2 ⟨[], [], []⟩⟩

/-- C8, counterexample: the empty-input early return of
sma_crossover_signal precedes the window validation, so the empty series
with a non-positive window returns an empty signal instead of raising
InvalidParameter. -/
theorem c8_counterexample :
    sma_crossover_signal (PyVal.series []) (-1) 200 = Except.ok [] ∧
      (Except.ok ([] : Series) : Except PyError Series)
        ≠ Except.error PyError.valueError := by
  constructor
  · rfl
  · intro h
    exact Except.noConfusion h

/-- C8, amended: for every non-empty series input, a non-positive short or
long window raises InvalidParameter (ValueError); the empty series instead
returns an empty integer signal whatever the windows are. -/
theorem c8_param (s : Series) (short long : ℤ) (hs : s ≠ [])
    (h : short ≤ 0 ∨ long ≤ 0) :
    sma_crossover_signal (PyVal.series s) short long
        = Except.error PyError.valueError ∧
      ∀ short2 long2 : ℤ,
        sma_crossover_signal (PyVal.series []) short2 long2 = Except.ok [] := by
  constructor
  · have hE : s.isEmpty = false := by
      cases s with
      | nil => exact absurd rfl hs
      | cons a l => rfl
    simp only [sma_crossover_signal, hE, Bool.false_eq_true, if_false]
    rw [if_pos h]
  · intro short2 long2
    rfl

/-- C8 witness: a one-point series with short window 0 is rejected, while
the empty series with the same windows passes through. -/
theorem c8_param_witness :
    sma_crossover_signal (PyVal.series [(0, some 1)]) 0 5
        = Except.error PyError.valueError ∧
      sma_crossover_signal (PyVal.series []) 0 5 = Except.ok [] :=
  ⟨(c8_param [(0, some 1)] 0 5 (by decide) (Or.inl (by norm_num))).1,
   (c8_param [(0, some 1)] 0 5 (by decide) (Or.inl (by norm_num))).2 0 5⟩

end Backtest

namespace Backtest

/-! Sharpe ratio: the branch structure of the source on the mean and the
sample standard deviation of the kept log returns, under IEEE float
semantics: a NAV ratio of exactly zero leaves ln 0 = -inf in the column
(dropna keeps infinities), which poisons the mean and the standard
deviation. -/

theorem summarize_sharpe (bt : BacktestResult)
    (h : ¬ (vals bt.equity_curve).length < 2) :
    (summarize bt).sharpe = sharpeOf (vals bt.equity_curve) := by
  simp [summarize, h]

theorem meanF_of_all_fin (l : List RVal) (hne : l ≠ [])
    (hfin : ∀ v ∈ l, ∃ x : ℝ, v = RVal.fin x) :
    meanF l = RVal.fin (rmean (finVals l)) := by
  have hE : l.isEmpty = false := by
    cases l with
    | nil => exact absurd rfl hne
    | cons a t => rfl
  have h1 : l.any isNanB = false := by
    rw [List.any_eq_false]
    intro v hv
    obtain ⟨x, rfl⟩ := hfin v hv
    simp [isNanB]
  have h2 : l.any isPinfB = false := by
    rw [List.any_eq_false]
    intro v hv
    obtain ⟨x, rfl⟩ := hfin v hv
    simp [isPinfB]
  have h3 : l.any isNinfB = false := by
    rw [List.any_eq_false]
    intro v hv
    obtain ⟨x, rfl⟩ := hfin v hv
    simp [isNinfB]
  simp [meanF, hE, h1, h2, h3]

theorem stdF_of_all_fin (l : List RVal) (hlen : 2 ≤ l.length)
    (hfin : ∀ v ∈ l, ∃ x : ℝ, v = RVal.fin x) :
    stdF l = RVal.fin (sampleStd (finVals l)) := by
  have hl : ¬ l.length < 2 := Nat.not_lt.mpr hlen
  have h1 : l.any isNanB = false := by
    rw [List.any_eq_false]
    intro v hv
    obtain ⟨x, rfl⟩ := hfin v hv
    simp [isNanB]
  have h2 : l.any isPinfB = false := by
    rw [List.any_eq_false]
    intro v hv
    obtain ⟨x, rfl⟩ := hfin v hv
    simp [isPinfB]
  have h3 : l.any isNinfB = false := by
    rw [List.any_eq_false]
    intro v hv
    obtain ⟨x, rfl⟩ := hfin v hv
    simp [isNinfB]
  simp [stdF, hl, h1, h2, h3]

theorem stdF_of_special (l : List RVal)
    (h : ∃ v ∈ l, ∀ x : ℝ, v ≠ RVal.fin x) : stdF l = RVal.nan := by
  obtain ⟨v, hv, hnf⟩ := h
  by_cases hl : l.length < 2
  · simp [stdF, hl]
  · cases v with
    | fin x => exact absurd rfl (hnf x)
    | pinf =>
      have hp : l.any isPinfB = true := List.any_eq_true.mpr ⟨_, hv, rfl⟩
      simp [stdF, hl, hp]
    | ninf =>
      have hp : l.any isNinfB = true := List.any_eq_true.mpr ⟨_, hv, rfl⟩
      simp [stdF, hl, hp]
    | nan =>
      have hp : l.any isNanB = true := List.any_eq_true.mpr ⟨_, hv, rfl⟩
      simp [stdF, hl, hp]

/-- C1, amended: with at least 2 NAV points and at least 2 kept log
returns: when every kept log return is finite (no NAV ratio is exactly
zero or infinite), Sharpe is sqrt(252) * mean / stddev when the sample
standard deviation exceeds 1e-9, exactly 0.0 when the mean is exactly zero
and the standard deviation is at most 1e-9, and absent when the mean is
non-zero and the standard deviation is at most 1e-9; and when some kept
log return is infinite (ln 0 = -inf from a NAV hitting exactly zero stays
after dropna), the standard deviation is nan and Sharpe is absent. -/
theorem c1_sharpe (bt : BacktestResult)
    (hnav : 2 ≤ (vals bt.equity_curve).length)
    (hlen : 2 ≤ (logRets (vals bt.equity_curve)).length) :
    ((∀ v ∈ logRets (vals bt.equity_curve), ∃ x : ℝ, v = RVal.fin x) →
      (((1e-9 : ℝ) < sampleStd (finVals (logRets (vals bt.equity_curve))) →
          (summarize bt).sharpe = some (Real.sqrt 252
            * rmean (finVals (logRets (vals bt.equity_curve)))
            / sampleStd (finVals (logRets (vals bt.equity_curve))))) ∧
        (rmean (finVals (logRets (vals bt.equity_curve))) = 0 ∧
            sampleStd (finVals (logRets (vals bt.equity_curve))) ≤ 1e-9 →
          (summarize bt).sharpe = some 0) ∧
        (rmean (finVals (logRets (vals bt.equity_curve))) ≠ 0 ∧
            sampleStd (finVals (logRets (vals bt.equity_curve))) ≤ 1e-9 →
          (summarize bt).sharpe = none))) ∧
    ((∃ v ∈ logRets (vals bt.equity_curve), ∀ x : ℝ, v ≠ RVal.fin x) →
      (summarize bt).sharpe = none) := by
  have hs : (summarize bt).sharpe = sharpeOf (vals bt.equity_curve) :=
    summarize_sharpe bt (Nat.not_lt.mpr hnav)
  rw [hs]
  simp only [sharpeOf]
  rw [if_pos hlen]
  constructor
  · intro hfin
    have hne : logRets (vals bt.equity_curve) ≠ [] := by
      intro hcon
      rw [hcon] at hlen
      exact absurd hlen (by norm_num)
    have hm := meanF_of_all_fin _ hne hfin
    have hsd := stdF_of_all_fin _ hlen hfin
    refine ⟨?_, ?_, ?_⟩
    · intro h
      rw [if_pos (show gtF (stdF (logRets (vals bt.equity_curve))) 1e-9 by
        rw [hsd]; exact h)]
      rw [hm, hsd]
      rfl
    · rintro ⟨h0, hle⟩
      have hcond : eqZeroF (meanF (logRets (vals bt.equity_curve))) ∧
          leF (stdF (logRets (vals bt.equity_curve))) 1e-9 := by
        constructor
        · rw [hm]; exact h0
        · rw [hsd]; exact hle
      rw [if_neg (show ¬ gtF (stdF (logRets (vals bt.equity_curve))) 1e-9 by
        rw [hsd]; exact not_lt.mpr hle)]
      rw [if_pos hcond]
    · rintro ⟨hne0, hle⟩
      rw [if_neg (show ¬ gtF (stdF (logRets (vals bt.equity_curve))) 1e-9 by
        rw [hsd]; exact not_lt.mpr hle)]
      rw [if_neg]
      rintro ⟨h0, _⟩
      rw [hm] at h0
      exact hne0 h0
  · intro hspec
    have hsd := stdF_of_special _ hspec
    rw [if_neg (show ¬ gtF (stdF (logRets (vals bt.equity_curve))) 1e-9 by
      rw [hsd]; exact fun h => h)]
    rw [if_neg]
    rintro ⟨_, hle⟩
    rw [hsd] at hle
    exact hle


/-- C1 witness: the constant NAV 1, 1, 1 has kept log returns 0, 0 (all
finite), mean exactly 0 and standard deviation 0, so Sharpe is exactly
0.0; the NAV 1, 1, 1, 0 of a total one-day loss keeps ln 0 = -inf after
dropna, so its Sharpe is absent. -/
theorem c1_sharpe_witness :
    (summarize ⟨[(0, some 1), (1, some 1), (2, some 1)], [], []⟩).sharpe = some 0 ∧
      (summarize ⟨[(0, some 1), (1, some 1), (2, some 1), (3, some 0)], [], []⟩).sharpe
        = none := by
  have hnan : logF RVal.nan = RVal.nan := rfl
  have hlog1 : logF (RVal.fin 1) = RVal.fin 0 := by
    simp only [logF]
    rw [if_pos (by norm_num : (0 : ℝ) < 1), Real.log_one]
  have hlog0 : logF (RVal.fin 0) = RVal.ninf := by
    simp only [logF]
    rw [if_neg (lt_irrefl (0 : ℝ))]
    simp
  constructor
  · have h1 : navRatios (vals
        (BacktestResult.mk [(0, some 1), (1, some 1), (2, some 1)] [] []).equity_curve)
        = [RVal.nan, RVal.fin 1, RVal.fin 1] := by
      norm_num [navRatios, ratioF, vals]
    have hlr : logRets (vals
        (BacktestResult.mk [(0, some 1), (1, some 1), (2, some 1)] [] []).equity_curve)
        = [RVal.fin 0, RVal.fin 0] := by
      simp only [logRets, h1, List.map_cons, List.map_nil, hnan, hlog1]
      simp [dropnaF, isNanB]
    have hfin : ∀ v ∈ ([RVal.fin 0, RVal.fin 0] : List RVal), ∃ x : ℝ, v = RVal.fin x := by
      intro v hv
      simp only [List.mem_cons, List.not_mem_nil, or_false] at hv
      rcases hv with rfl | rfl <;> exact ⟨0, rfl⟩
    have hfv : finVals [RVal.fin 0, RVal.fin 0] = [0, 0] := rfl
    have hmean : rmean ([0, 0] : List ℝ) = 0 := by norm_num [rmean]
    have hvar : sampleVar ([0, 0] : List ℝ) = 0 := by norm_num [sampleVar, rmean]
    have hstd : sampleStd ([0, 0] : List ℝ) = 0 := by
      rw [sampleStd, hvar, Real.sqrt_zero]
    have happ := (c1_sharpe ⟨[(0, some 1), (1, some 1), (2, some 1)], [], []⟩
      (by norm_num [vals]) (by rw [hlr]; norm_num)).1
    rw [hlr] at happ
    refine (happ hfin).2.1 ⟨?_, ?_⟩
    · rw [hfv, hmean]
    · rw [hfv, hstd]
      norm_num
  · have h2 : navRatios (vals
        (BacktestResult.mk [(0, some 1), (1, some 1), (2, some 1), (3, some 0)] [] []).equity_curve)
        = [RVal.nan, RVal.fin 1, RVal.fin 1, RVal.fin 0] := by
      norm_num [navRatios, ratioF, vals]
    have hlr2 : logRets (vals
        (BacktestResult.mk [(0, some 1), (1, some 1), (2, some 1), (3, some 0)] [] []).equity_curve)
        = [RVal.fin 0, RVal.fin 0, RVal.ninf] := by
      simp only [logRets, h2, List.map_cons, List.map_nil, hnan, hlog1, hlog0]
      simp [dropnaF, isNanB]
    refine (c1_sharpe ⟨[(0, some 1), (1, some 1), (2, some 1), (3, some 0)], [], []⟩
      (by norm_num [vals]) (by rw [hlr2]; norm_num)).2 ?_
    rw [hlr2]
    exact ⟨RVal.ninf, by simp, fun x h => by cases h⟩

/-- NAV series 1, 1 + 1e-12, (1 + 1e-12)^2: its two kept log returns both
equal log(1 + 1e-12), finite, with a mean within 1e-9 of zero yet non-zero
and a standard deviation of exactly 0. -/
def navC1 : Series :=
  [(0, some 1), (1, some (1000000000001 / 1000000000000)),
   (2, some ((1000000000001 / 1000000000000) ^ 2))]

/-- C1, counterexample: on navC1 both the mean and the standard deviation
of the kept log returns are finite and within 1e-9 of zero, yet the source
returns an absent Sharpe rather than the claimed exact 0.0, because its
flat-series branch requires the mean to be exactly zero. -/
theorem c1_counterexample :
    (∃ m : ℝ, meanF (logRets (vals (BacktestResult.mk navC1 [] []).equity_curve))
        = RVal.fin m ∧ |m| ≤ 1e-9) ∧
      (∃ s : ℝ, stdF (logRets (vals (BacktestResult.mk navC1 [] []).equity_curve))
        = RVal.fin s ∧ s ≤ 1e-9) ∧
      (summarize (BacktestResult.mk navC1 [] [])).sharpe ≠ some 0 := by
  have hnan : logF RVal.nan = RVal.nan := rfl
  have h1 : navRatios (vals (BacktestResult.mk navC1 [] []).equity_curve)
      = [RVal.nan, RVal.fin (((1000000000001 : ℚ) / 1000000000000 : ℚ) : ℝ),
         RVal.fin (((1000000000001 : ℚ) / 1000000000000 : ℚ) : ℝ)] := by
    norm_num [navRatios, ratioF, vals, navC1]
  set c : ℝ := (((1000000000001 : ℚ) / 1000000000000 : ℚ) : ℝ) with hcdef
  have hc0 : (0 : ℝ) < c := by
    rw [hcdef]
    push_cast
    norm_num
  have hc1 : (1 : ℝ) < c := by
    rw [hcdef]
    push_cast
    norm_num
  have hlogc : logF (RVal.fin c) = RVal.fin (Real.log c) := by
    simp only [logF]
    rw [if_pos hc0]
  have hlr : logRets (vals (BacktestResult.mk navC1 [] []).equity_curve)
      = [RVal.fin (Real.log c), RVal.fin (Real.log c)] := by
    simp only [logRets, h1, List.map_cons, List.map_nil, hnan, hlogc]
    simp [dropnaF, isNanB]
  have hxpos : 0 < Real.log c := Real.log_pos hc1
  have hxle : Real.log c ≤ 1e-9 := by
    refine le_trans (Real.log_le_sub_one_of_pos hc0) ?_
    rw [hcdef]
    push_cast
    norm_num
  have hfin : ∀ v ∈ ([RVal.fin (Real.log c), RVal.fin (Real.log c)] : List RVal),
      ∃ x : ℝ, v = RVal.fin x := by
    intro v hv
    simp only [List.mem_cons, List.not_mem_nil, or_false] at hv
    rcases hv with rfl | rfl <;> exact ⟨Real.log c, rfl⟩
  have hfv : finVals [RVal.fin (Real.log c), RVal.fin (Real.log c)]
      = [Real.log c, Real.log c] := rfl
  have hmean : rmean [Real.log c, Real.log c] = Real.log c := by
    simp [rmean]
  have hvar : sampleVar [Real.log c, Real.log c] = 0 := by
    simp [sampleVar, hmean]
  have hstd : sampleStd [Real.log c, Real.log c] = 0 := by
    rw [sampleStd, hvar, Real.sqrt_zero]
  have hmeanF : meanF [RVal.fin (Real.log c), RVal.fin (Real.log c)]
      = RVal.fin (Real.log c) := by
    rw [meanF_of_all_fin _ (by simp) hfin, hfv, hmean]
  have hstdF : stdF [RVal.fin (Real.log c), RVal.fin (Real.log c)]
      = RVal.fin 0 := by
    rw [stdF_of_all_fin _ (by norm_num) hfin, hfv, hstd]
  refine ⟨⟨Real.log c, ?_, ?_⟩, ⟨0, ?_, by norm_num⟩, ?_⟩
  · rw [hlr, hmeanF]
  · rw [abs_of_pos hxpos]
    exact hxle
  · rw [hlr, hstdF]
  · rw [summarize_sharpe _ (by norm_num [vals, navC1])]
    simp only [sharpeOf]
    rw [hlr]
    rw [if_pos (by norm_num :
      2 ≤ ([RVal.fin (Real.log c), RVal.fin (Real.log c)] : List RVal).length)]
    rw [if_neg (show ¬ gtF (stdF [RVal.fin (Real.log c), RVal.fin (Real.log c)]) 1e-9 by
      rw [hstdF]
      exact not_lt.mpr (by norm_num))]
    rw [if_neg (show ¬ (eqZeroF (meanF [RVal.fin (Real.log c), RVal.fin (Real.log c)]) ∧
        leF (stdF [RVal.fin (Real.log c), RVal.fin (Real.log c)]) 1e-9) by
      rintro ⟨h0, _⟩
      rw [hmeanF] at h0
      exact (ne_of_gt hxpos) h0)]
    simp

end Backtest
